import Mathlib

/-!
# Verification of the go-cast binary container codec

Shallow embedding of the `cast` Go package (mauserzjeh/go-cast, file
`cast.go`): a codec for the "cast" hierarchical binary container format.

Modelling conventions:
* Byte streams are `List Nat`; a real byte is `< 256`.  Machine-integer
  truncation (`uint16(...)`, `uint32(...)`) is explicit `% 2^w`, applied at
  exactly the points the Go code converts.
* Fallible operations return `Option`/`Except`; a Go `panic` (indexing an
  empty slice) is modelled as `Option.none`.
* The generic Go property `CastProperty[T]` is a closed tagged union over
  `T ∈ {byte, uint16, uint32, uint64, float32, float64, string, Vec2, Vec3,
  Vec4}`; it is modelled by the inductive `PropValues` with one constructor
  per instantiation.  The codec never computes with float values — it only
  copies their bytes — so every non-string element is represented by the
  `Nat` whose little-endian byte image is the element's wire image (for
  `Vec2/3/4` the concatenation of the component `float32` bit patterns,
  lowest component first).  A Go `string` value is its byte sequence.
* Go map iteration order is unspecified; the embedding stores a node's
  property map as an insertion-ordered association list with
  last-write-wins assignment (`mapAssign`) and iterates in list order.
  Every theorem below that touches iteration is order-invariant (byte
  counts, totality) or is evaluated on nodes with at most one property.
* The parent back-reference (`parentNode`) makes the Go tree cyclic; the
  embedding drops the field and passes the parent explicitly to the one
  query that consults it (`getChildByHash`).
-/

/-! ## Binary primitive codec (§ helpers of cast.go) -/

/-- Little-endian value of a byte list: head is the least significant byte
(`binary.LittleEndian`). -/
def leVal : List Nat → Nat
  | [] => 0
  | b :: bs => b + 256 * leVal bs

/-- `w`-byte little-endian image of `v` — the wire image of `v % 256^w`,
which is how a Go fixed-width unsigned integer truncates on write. -/
def leBytes : Nat → Nat → List Nat
  | 0, _ => []
  | w + 1, v => v % 256 :: leBytes w (v / 256)

/-- Read exactly `k` bytes from the stream.  `binary.Read` fills its target
via `io.ReadFull` and fails when fewer than `k` bytes remain. -/
def readBytes (k : Nat) (s : List Nat) : Option (List Nat × List Nat) :=
  if k ≤ s.length then some (s.take k, s.drop k) else none

/-- Read a `w`-byte little-endian unsigned integer. -/
def readLE (w : Nat) (s : List Nat) : Option (Nat × List Nat) :=
  (readBytes w s).map fun p => (leVal p.1, p.2)

/-- `readString` of cast.go: scan one byte at a time until a zero byte or
the end of the stream; a non-`io.EOF` stream error cannot arise on an
in-memory stream, and `io.EOF` leaves the byte variable at its zero value
`0`, which breaks the loop exactly like a terminator. -/
def readString : List Nat → List Nat × List Nat
  | [] => ([], [])
  | b :: rest =>
    if b = 0 then ([], rest)
    else
      let q := readString rest
      (b :: q.1, q.2)

theorem leBytes_length (w v : Nat) : (leBytes w v).length = w := by
  induction w generalizing v with
  | zero => rfl
  | succ w ih => simp [leBytes, ih]

theorem leVal_leBytes (w v : Nat) : leVal (leBytes w v) = v % 256 ^ w := by
  induction w generalizing v with
  | zero => simp [leBytes, leVal, Nat.mod_one]
  | succ w ih =>
    simp only [leBytes, leVal, ih]
    rw [pow_succ, mul_comm (256 ^ w) 256, Nat.mod_mul]

theorem readBytes_append (bs rest : List Nat) :
    readBytes bs.length (bs ++ rest) = some (bs, rest) := by
  simp [readBytes]

theorem readLE_leBytes (w v : Nat) (rest : List Nat) :
    readLE w (leBytes w v ++ rest) = some (v % 256 ^ w, rest) := by
  have h := readBytes_append (leBytes w v) rest
  rw [leBytes_length] at h
  simp [readLE, h, leVal_leBytes]

/-! ## Errors

The Go code reports errors as `error` values; distinct construction sites
are modelled as distinct constructors.  `ioError` stands for any error
propagated unchanged from the underlying stream (truncation). -/

inductive CastErr where
  | ioError
  | invalidMagic (m : Nat)
  | invalidPropertyId (id : Nat)
  | propertyNotFound (name : List Nat)
  | propertyTypeMismatch
  | emptyValues deriving DecidableEq

/-! ## Property variant store (cast.go `CastProperty[T]`) -/

/-- The ten Go value types admitted by `CastPropertyValueType`. -/
inductive GoValueTy where
  | tByte | tUint16 | tUint32 | tUint64 | tFloat32 | tFloat64
  | tString | tVec2 | tVec3 | tVec4 deriving DecidableEq

/-- The `values []T` slice of a `CastProperty[T]`, tagged by the Go element
type it was instantiated at (the tag is what the runtime type switches and
type assertions of the source inspect). -/
inductive PropValues where
  | vByte (vs : List Nat)
  | vShort (vs : List Nat)
  | vInt32 (vs : List Nat)
  | vInt64 (vs : List Nat)
  | vFloat (vs : List Nat)
  | vDouble (vs : List Nat)
  | vString (vs : List (List Nat))
  | vVec2 (vs : List Nat)
  | vVec3 (vs : List Nat)
  | vVec4 (vs : List Nat) deriving DecidableEq

namespace PropValues

/-- Dynamic Go element type of the slice. -/
def goTy : PropValues → GoValueTy
  | vByte _ => .tByte
  | vShort _ => .tUint16
  | vInt32 _ => .tUint32
  | vInt64 _ => .tUint64
  | vFloat _ => .tFloat32
  | vDouble _ => .tFloat64
  | vString _ => .tString
  | vVec2 _ => .tVec2
  | vVec3 _ => .tVec3
  | vVec4 _ => .tVec4

/-- `len(p.values)` — the number of elements held. -/
def count : PropValues → Nat
  | vByte vs | vShort vs | vInt32 vs | vInt64 vs | vFloat vs
  | vDouble vs | vVec2 vs | vVec3 vs | vVec4 vs => vs.length
  | vString vs => vs.length

/-- Wire size in bytes of one element of each fixed-size kind (`byte` 1,
`uint16` 2, `uint32` 4, `uint64` 8, `float32` 4, `float64` 8, `Vec2` 8,
`Vec3` 12, `Vec4` 16).  Unused for the string kind (value 0). -/
def elemSize : PropValues → Nat
  | vByte _ => 1
  | vShort _ => 2
  | vInt32 _ => 4
  | vInt64 _ => 8
  | vFloat _ => 4
  | vDouble _ => 8
  | vString _ => 0
  | vVec2 _ => 8
  | vVec3 _ => 12
  | vVec4 _ => 16

/-- The numeric element list (empty for the string kind). -/
def nums : PropValues → List Nat
  | vByte vs | vShort vs | vInt32 vs | vInt64 vs | vFloat vs
  | vDouble vs | vVec2 vs | vVec3 vs | vVec4 vs => vs
  | vString _ => []

/-- Replace the numeric element list, keeping the tag (decode fills the
preallocated slice in place). -/
def withNums (v : PropValues) (ws : List Nat) : PropValues :=
  match v with
  | vByte _ => vByte ws
  | vShort _ => vShort ws
  | vInt32 _ => vInt32 ws
  | vInt64 _ => vInt64 ws
  | vFloat _ => vFloat ws
  | vDouble _ => vDouble ws
  | vString vs => vString vs
  | vVec2 _ => vVec2 ws
  | vVec3 _ => vVec3 ws
  | vVec4 _ => vVec4 ws

end PropValues

/-- `encoding/binary.Size` on the `values` slice: number of payload bytes
for a slice of fixed-size elements, and `-1` for `[]string` (a Go string
has no fixed wire size). -/
def binarySize (v : PropValues) : Int :=
  match v with
  | .vString _ => -1
  | v => (v.elemSize * v.count : Nat)

/-- Go conversion `uint32(i)` of a (64-bit) signed integer: two's
complement truncation, e.g. `uint32(-1) = 4294967295`. -/
def uint32ofInt (i : Int) : Nat :=
  (i % 4294967296).toNat

/-- A property: `id` (`CastPropertyId`, uint16 tag), `name`, `values`. -/
structure CastProperty where
  id : Nat
  name : List Nat
  values : PropValues deriving DecidableEq

/-- The closed set of property kind tags of cast.go. -/
def PropByte : Nat := 0x62
def PropShort : Nat := 0x68
def PropInteger32 : Nat := 0x69
def PropInteger64 : Nat := 0x6C
def PropFloat : Nat := 0x66
def PropDouble : Nat := 0x64
def PropString : Nat := 0x73
def PropVector2 : Nat := 0x7632
def PropVector3 : Nat := 0x7633
def PropVector4 : Nat := 0x7634

def castPropertyIds : List Nat :=
  [PropByte, PropShort, PropInteger32, PropInteger64, PropFloat,
   PropDouble, PropString, PropVector2, PropVector3, PropVector4]

/-- `newCastProperty(id, name, size)`: the switch over the kind tag;
`make([]T, size)` allocates `size` zero values; every tag outside the
closed set hits the default branch's invalid-property-id error. -/
def newCastProperty (id : Nat) (name : List Nat) (size : Nat) :
    Except CastErr CastProperty :=
  if id = PropByte then .ok ⟨id, name, .vByte (List.replicate size 0)⟩
  else if id = PropShort then .ok ⟨id, name, .vShort (List.replicate size 0)⟩
  else if id = PropInteger32 then .ok ⟨id, name, .vInt32 (List.replicate size 0)⟩
  else if id = PropInteger64 then .ok ⟨id, name, .vInt64 (List.replicate size 0)⟩
  else if id = PropFloat then .ok ⟨id, name, .vFloat (List.replicate size 0)⟩
  else if id = PropDouble then .ok ⟨id, name, .vDouble (List.replicate size 0)⟩
  else if id = PropString then .ok ⟨id, name, .vString (List.replicate size [])⟩
  else if id = PropVector2 then .ok ⟨id, name, .vVec2 (List.replicate size 0)⟩
  else if id = PropVector3 then .ok ⟨id, name, .vVec3 (List.replicate size 0)⟩
  else if id = PropVector4 then .ok ⟨id, name, .vVec4 (List.replicate size 0)⟩
  else .error (.invalidPropertyId id)

/-- Split `k` elements of `w` bytes each off a byte list, little-endian
(the element view of one bulk `binary.Read` into a length-`k` slice). -/
def readElems (w : Nat) : Nat → List Nat → List Nat
  | 0, _ => []
  | k + 1, bs => leVal (bs.take w) :: readElems w k (bs.drop w)

/-- Little-endian wire image of a list of `w`-byte elements (one bulk
`binary.Write` of the slice). -/
def writeElems (w : Nat) : List Nat → List Nat
  | [] => []
  | v :: vs => leBytes w v ++ writeElems w vs

theorem readElems_length (w k : Nat) (bs : List Nat) :
    (readElems w k bs).length = k := by
  induction k generalizing bs with
  | zero => rfl
  | succ k ih => simp [readElems, ih]

theorem writeElems_length (w : Nat) (vs : List Nat) :
    (writeElems w vs).length = w * vs.length := by
  induction vs with
  | nil => simp [writeElems]
  | cons v vs ih => simp [writeElems, ih, leBytes_length, Nat.mul_succ]; ring

/-- The type switch of `CastProperty.load`: a `[]string` slice reads a
single null-terminated string and becomes the one-element slice holding
it; every other kind bulk-reads exactly `elemSize * len(values)` bytes
into the preallocated slice. -/
def loadValues : PropValues → List Nat → Option (PropValues × List Nat)
  | .vString _, s =>
    let q := readString s
    some (.vString [q.1], q.2)
  | v, s =>
    (readBytes (v.elemSize * v.count) s).map fun q =>
      (v.withNums (readElems v.elemSize v.count q.1), q.2)

/-- `CastProperty.load`: the payload decoder (the id and name fields are
untouched; only the value slice is filled). -/
def CastProperty.load (p : CastProperty) (s : List Nat) :
    Option (CastProperty × List Nat) :=
  (loadValues p.values s).map fun q => ({ p with values := q.1 }, q.2)

/-- `CastProperty.write`: 8-byte header (`id: u16`, `name_len: u16`,
`array_len: u32 = uint32(binary.Size(values))`), the raw name bytes, then
the payload — the single string plus one zero byte for the string kind
(indexing `values[0]`, which panics when the slice is empty), the bulk
little-endian element image otherwise. -/
def CastProperty.write (p : CastProperty) : Option (List Nat) :=
  let header :=
    leBytes 2 p.id ++ leBytes 2 p.name.length ++
      leBytes 4 (uint32ofInt (binarySize p.values))
  match p.values with
  | .vString [] => none
  | .vString (s :: _) => some (header ++ p.name ++ s ++ [0])
  | v => some (header ++ p.name ++ writeElems v.elemSize v.nums)

/-- `CastProperty.len`: 8-byte header + name length + payload length; the
string case indexes `values[0]` (panics when empty), the others add
`binary.Size(values) = elemSize * count`. -/
def CastProperty.len (p : CastProperty) : Option Nat :=
  match p.values with
  | .vString [] => none
  | .vString (s :: _) => some (8 + p.name.length + (s.length + 1))
  | v => some (8 + p.name.length + v.elemSize * v.count)

/-- `loadCastProperty`: 8-byte header, `name_len` name bytes, then
`newCastProperty` (which rejects unknown tags) and the payload load. -/
def loadCastProperty (s : List Nat) : Except CastErr (CastProperty × List Nat) :=
  match readLE 2 s with
  | none => .error .ioError
  | some (id, s1) =>
    match readLE 2 s1 with
    | none => .error .ioError
    | some (nameSize, s2) =>
      match readLE 4 s2 with
      | none => .error .ioError
      | some (arrayLength, s3) =>
        match readBytes nameSize s3 with
        | none => .error .ioError
        | some (name, s4) =>
          match newCastProperty id name arrayLength with
          | .error e => .error e
          | .ok p =>
            match p.load s4 with
            | none => .error .ioError
            | some (p', rest) => .ok (p', rest)

/-! ## Node tree (cast.go `CastNode`) -/

/-- A node: `id` (`CastNodeId`, uint32), `hash` (uint64), the property
map (insertion-ordered, last-write-wins — see the header comment), and
the child list.  The non-owning `parentNode` back-reference is dropped;
queries that consult it receive the parent explicitly. -/
inductive CastNode where
  | mk (id : Nat) (hash : Nat) (properties : List CastProperty)
      (childNodes : List CastNode)

def CastNode.id : CastNode → Nat
  | .mk i _ _ _ => i

/-- `Hash()` accessor. -/
def CastNode.Hash : CastNode → Nat
  | .mk _ h _ _ => h

def CastNode.properties : CastNode → List CastProperty
  | .mk _ _ ps _ => ps

def CastNode.childNodes : CastNode → List CastNode
  | .mk _ _ _ cs => cs

/-- Go map assignment `m[name] = p`: replace the entry with that key, or
append a new one (content is last-write-wins; the list order stands in
for Go's unspecified iteration order). -/
def mapAssign (m : List CastProperty) (p : CastProperty) : List CastProperty :=
  if m.any (fun q => q.name == p.name) then
    m.map fun q => if q.name == p.name then p else q
  else m ++ [p]

/-- Go map lookup `m[name]`. -/
def mapLookup (m : List CastProperty) (name : List Nat) : Option CastProperty :=
  m.find? fun q => q.name == name

/-- `GetProperty` — lookup in the node's property map. -/
def CastNode.GetProperty (n : CastNode) (name : List Nat) : Option CastProperty :=
  mapLookup n.properties name

/-- `CreateProperty(id, name)` — `newCastProperty(id, name, 0)`, then map
assignment; the error of `newCastProperty` is returned unchanged. -/
def CastNode.CreateProperty (n : CastNode) (id : Nat) (name : List Nat) :
    Except CastErr (CastProperty × CastNode) :=
  match newCastProperty id name 0 with
  | .error e => .error e
  | .ok p =>
    .ok (p, .mk n.id n.Hash (mapAssign n.properties p) n.childNodes)

/-- Sum of `p.len()` over the property map (the loop inside
`castNode.len`); `none` once any property's `len` panics. -/
def propsLen : List CastProperty → Option Nat
  | [] => some 0
  | p :: ps => do
    let a ← p.len
    let b ← propsLen ps
    pure (a + b)

/-- Concatenated `p.write(w)` output over the property map (the loop
inside `castNode.write`). -/
def propsWrite : List CastProperty → Option (List Nat)
  | [] => some []
  | p :: ps => do
    let a ← p.write
    let b ← propsWrite ps
    pure (a ++ b)

mutual
/-- `castNode.len`: `0x18` plus all property lengths plus all child
lengths. -/
def CastNode.len : CastNode → Option Nat
  | .mk _ _ ps cs => do
    let a ← propsLen ps
    let b ← CastNode.lenList cs
    pure (0x18 + a + b)

def CastNode.lenList : List CastNode → Option Nat
  | [] => some 0
  | c :: cs => do
    let a ← c.len
    let b ← CastNode.lenList cs
    pure (a + b)
end

mutual
/-- `castNode.write`: 24-byte header (`id: u32`, `size: u32 = uint32(len)`,
`hash: u64`, `property_count: u32`, `child_count: u32`), then every
property, then every child. -/
def CastNode.write : CastNode → Option (List Nat)
  | .mk i h ps cs => do
    let sz ← CastNode.len (.mk i h ps cs)
    let pbs ← propsWrite ps
    let cbs ← CastNode.writeList cs
    pure (leBytes 4 i ++ leBytes 4 sz ++ leBytes 8 h ++
      leBytes 4 ps.length ++ leBytes 4 cs.length ++ pbs ++ cbs)

def CastNode.writeList : List CastNode → Option (List Nat)
  | [] => some []
  | c :: cs => do
    let a ← c.write
    let b ← CastNode.writeList cs
    pure (a ++ b)
end

/-- The loop of `castNode.load` over `header.PropertyCount`: each decoded
property is map-assigned under its own name (a later duplicate name
silently overwrites an earlier one). -/
def loadProps : Nat → List CastProperty → List Nat →
    Except CastErr (List CastProperty × List Nat)
  | 0, acc, s => .ok (acc, s)
  | k + 1, acc, s =>
    match loadCastProperty s with
    | .error e => .error e
    | .ok (p, s') => loadProps k (mapAssign acc p) s'

/-- The child-decoding loop: `loadChild` decodes one node. -/
def loadChildren (loadChild : List Nat → Except CastErr (CastNode × List Nat)) :
    Nat → List Nat → Except CastErr (List CastNode × List Nat)
  | 0, s => .ok ([], s)
  | k + 1, s =>
    match loadChild s with
    | .error e => .error e
    | .ok (c, s') =>
      match loadChildren loadChild k s' with
      | .error e => .error e
      | .ok (cs, s'') => .ok (c :: cs, s'')

/-- `castNode.load`.  The 24-byte node header is read in full, but only
`PropertyCount` (bytes 16–19) and `ChildCount` (bytes 20–23) are used:
the code never stores `header.Id` or `header.NodeHash` into the node, so
a loaded node keeps the Go zero values `id = 0`, `hash = 0`.  The
`NodeSize` field is ignored too (decoding is driven by the counts).
The recursion over the byte stream is not structural; `fuel` bounds the
recursion depth (the embedding's device, not the source's — `Load` below
supplies fuel that a finite stream can never exhaust, since every call
consumes at least the 24 header bytes). -/
def CastNode.loadF : Nat → List Nat → Except CastErr (CastNode × List Nat)
  | 0, _ => .error .ioError
  | fuel + 1, s =>
    match readBytes 24 s with
    | none => .error .ioError
    | some (hdr, s1) =>
      let propertyCount := leVal ((hdr.drop 16).take 4)
      let childCount := leVal ((hdr.drop 20).take 4)
      match loadProps propertyCount [] s1 with
      | .error e => .error e
      | .ok (ps, s2) =>
        match loadChildren (CastNode.loadF fuel) childCount s2 with
        | .error e => .error e
        | .ok (cs, s3) => .ok (.mk 0 0 ps cs, s3)

/-! ## Container (cast.go `CastFile`) -/

def castMagic : Nat := 0x74736163

structure CastFile where
  flags : Nat
  version : Nat
  rootNodes : List CastNode

/-- `Load(r)`: 16-byte file header (`magic`, `version`, `root_count`,
`flags`), magic check, then `root_count` recursive node loads.  Trailing
bytes after the last root are simply not consumed. -/
def Load (s : List Nat) : Except CastErr CastFile :=
  match readBytes 16 s with
  | none => .error .ioError
  | some (hdr, s1) =>
    let magic := leVal (hdr.take 4)
    let version := leVal ((hdr.drop 4).take 4)
    let rootCount := leVal ((hdr.drop 8).take 4)
    let flags := leVal ((hdr.drop 12).take 4)
    if magic ≠ castMagic then .error (.invalidMagic magic)
    else
      match loadChildren (CastNode.loadF s1.length) rootCount s1 with
      | .error e => .error e
      | .ok (roots, _) => .ok ⟨flags, version, roots⟩

/-- `CastFile.Write(w)`: the 16-byte header (magic, version, root count,
flags) followed by every root node's `write`. -/
def CastFile.Write (f : CastFile) : Option (List Nat) :=
  (CastNode.writeList f.rootNodes).map fun bs =>
    leBytes 4 castMagic ++ leBytes 4 f.version ++
      leBytes 4 f.rootNodes.length ++ leBytes 4 f.flags ++ bs

/-! ## Typed accessors (cast.go `GetPropertyValues` / `GetPropertyValue`) -/

/-- A single Go property value: a numeric/vector element or a string. -/
inductive GoValue where
  | num (v : Nat)
  | str (s : List Nat) deriving DecidableEq

/-- First element of the value slice, if any. -/
def PropValues.firstVal : PropValues → Option GoValue
  | .vString vs => vs.head?.map GoValue.str
  | v => v.nums.head?.map GoValue.num

/-- `GetPropertyValues[T](node, name)`: map lookup, then the type
assertion `property.(*CastProperty[T])`, which succeeds exactly when the
property's dynamic element type is `T`; the whole value slice is
returned. -/
def GetPropertyValues (T : GoValueTy) (n : CastNode) (name : List Nat) :
    Except CastErr PropValues :=
  match n.GetProperty name with
  | none => .error (.propertyNotFound name)
  | some p =>
    if p.values.goTy = T then .ok p.values
    else .error .propertyTypeMismatch

/-- `GetPropertyValue[T](node, name)`: `GetPropertyValues`, then
`ErrEmptyValues` when the slice is empty, else a pointer to the first
element (modelled as the element itself). -/
def GetPropertyValue (T : GoValueTy) (n : CastNode) (name : List Nat) :
    Except CastErr GoValue :=
  match GetPropertyValues T n name with
  | .error e => .error e
  | .ok vs =>
    match vs.firstVal with
    | none => .error .emptyValues
    | some v => .ok v

/-! ## The wrapper-node version of the library (the generic accessors
`getPropertyValues`, `getChildByHash`, `castNode.ChildByHash`,
`CastNodeIKHandle.EndBone` of the earlier `castNode`/wrapper API in the
same repository).

In that version every concrete node is a wrapper struct
(`CastNodeRoot`, `CastNodeBone`, …) embedding `castNode`, and trees hold
children behind the `iCastNode` interface.  The dynamic Go type of such
an interface value is a pointer type: `*castNode` for nodes built by
`Load` (each child is allocated as `&castNode{}`), `*CastNodeBone` etc.
for nodes built by `CreateChild(NewCastNodeBone())`.  All `iCastNode`
methods have pointer receivers, so only pointer types implement the
interface; a type assertion `c.(T)` to a non-interface `T` succeeds
exactly when the dynamic type is identical to `T`.  The embedding
therefore records the dynamic Go type in the node (`dyn`). -/

inductive WrapperKind where
  | root | model | mesh | blendShape | skeleton | bone | ikHandle
  | constraint | material | file | animation | curve
  | notificationTrack | inst deriving DecidableEq

/-- Dynamic Go type of a node as seen through `iCastNode`:
`*castNode`, a pointer to a wrapper struct, or a wrapper struct value
(the assertion target used by `getChildByHash[T]`). -/
inductive GoNodeType where
  | ptrCastNode
  | ptrWrapper (w : WrapperKind)
  | valWrapper (w : WrapperKind) deriving DecidableEq

/-- A node of the wrapper API: dynamic Go type, `id`, `nodeHash`,
property map, children (the `parentNode` back-reference is passed
explicitly to the queries that use it). -/
inductive castNode where
  | mk (dyn : GoNodeType) (id : Nat) (nodeHash : Nat)
      (properties : List CastProperty) (children : List castNode)

def castNode.dyn : castNode → GoNodeType
  | .mk d _ _ _ _ => d

def castNode.nodeHash : castNode → Nat
  | .mk _ _ h _ _ => h

def castNode.properties : castNode → List CastProperty
  | .mk _ _ _ ps _ => ps

def castNode.children : castNode → List castNode
  | .mk _ _ _ _ cs => cs

/-- `castNode.ChildByHash`: collect every direct child whose hash
matches, return the first if any. -/
def castNode.ChildByHash (n : castNode) (h : Nat) : Option castNode :=
  let nodes := n.children.filter fun c => c.nodeHash == h
  if nodes.length > 0 then nodes.head? else none

/-- `castNode.GetProperty` of the wrapper API. -/
def castNode.GetProperty (n : castNode) (name : List Nat) : Option CastProperty :=
  mapLookup n.properties name

/-- Empty `[]T` slice of a given element type. -/
def emptySliceOf : GoValueTy → PropValues
  | .tByte => .vByte []
  | .tUint16 => .vShort []
  | .tUint32 => .vInt32 []
  | .tUint64 => .vInt64 []
  | .tFloat32 => .vFloat []
  | .tFloat64 => .vDouble []
  | .tString => .vString []
  | .tVec2 => .vVec2 []
  | .tVec3 => .vVec3 []
  | .tVec4 => .vVec4 []

/-- `getPropertyValues[T](node, name)` of the wrapper API: an absent
property or a failed type assertion yields the empty slice `[]T{}`
(this version never returns an error). -/
def getPropertyValues (T : GoValueTy) (n : castNode) (name : List Nat) :
    PropValues :=
  match n.GetProperty name with
  | none => emptySliceOf T
  | some p =>
    if p.values.goTy = T then p.values else emptySliceOf T

/-- Go type assertion `c.(T)` for a non-interface target: succeeds exactly
when the dynamic type of the interface value is identical to `T`. -/
def typeAssertNode (T : GoNodeType) (c : castNode) : Option castNode :=
  if c.dyn = T then some c else none

/-- `getChildByHash[T](node, name, useParent)`: read the node's own
`[]uint64` property `name`; empty means nil; with `useParent` the search
target is the parent (nil parent means nil result); then `ChildByHash`
on the target, and finally the assertion of the found child to the
wrapper *value* type `T`. -/
def getChildByHash (T : WrapperKind) (node : castNode)
    (parent : Option castNode) (name : List Nat) (useParent : Bool) :
    Option castNode :=
  match (getPropertyValues .tUint64 node name).nums with
  | [] => none
  | v :: _ =>
    match (if useParent then parent else some node) with
    | none => none
    | some m =>
      match m.ChildByHash v with
      | none => none
      | some c => typeAssertNode (.valWrapper T) c

/-- Property name `"eb"` (`CastPropertyNameEndBone`). -/
def endBoneName : List Nat := [0x65, 0x62]

/-- `CastNodeIKHandle.EndBone()`:
`getChildByHash[CastNodeBone](n, "eb", true)`. -/
def CastNodeIKHandle.EndBone (n : castNode) (parent : Option castNode) :
    Option castNode :=
  getChildByHash .bone n parent endBoneName true

/-! ## Supporting lemmas -/

theorem readLE_eq_some (w : Nat) (s : List Nat) (v : Nat) (s' : List Nat)
    (h : readLE w s = some (v, s')) :
    v = leVal (s.take w) ∧ s' = s.drop w ∧ w ≤ s.length := by
  unfold readLE readBytes at h
  by_cases hw : w ≤ s.length
  · simp [hw] at h
    exact ⟨h.1.symm, h.2.symm, hw⟩
  · simp [hw] at h

theorem propLen_eq_propWrite (p : CastProperty) :
    p.len = p.write.map List.length := by
  obtain ⟨id, name, v⟩ := p
  cases v
  case vString vs =>
    cases vs with
    | nil => rfl
    | cons s rest =>
      simp [CastProperty.len, CastProperty.write, leBytes_length]
      omega
  all_goals
    simp [CastProperty.len, CastProperty.write, leBytes_length,
      writeElems_length, PropValues.elemSize, PropValues.count,
      PropValues.nums]
  all_goals omega

theorem propsLen_eq_propsWrite (ps : List CastProperty) :
    propsLen ps = (propsWrite ps).map List.length := by
  induction ps with
  | nil => rfl
  | cons p ps ih =>
    have hp := propLen_eq_propWrite p
    unfold propsLen propsWrite
    cases hw : p.write with
    | none => simp [hw] at hp; simp [hp, hw, Option.bind]
    | some bs =>
      rw [hw] at hp
      cases hws : propsWrite ps with
      | none => rw [hws] at ih; simp [hp, hw, hws, ih, Option.bind]
      | some bss =>
        rw [hws] at ih
        simp [hp, hw, hws, ih, Option.bind]

mutual
theorem nodeLen_eq_nodeWrite (n : CastNode) :
    n.len = n.write.map List.length := by
  match n with
  | .mk i h ps cs =>
    have hcs := CastNode.lenList_eq_writeList cs
    have hps := propsLen_eq_propsWrite ps
    cases hw : propsWrite ps with
    | none =>
      rw [hw] at hps
      have hlen : CastNode.len (.mk i h ps cs) = none := by
        unfold CastNode.len
        simp [hps, Option.bind]
      unfold CastNode.write
      simp [hlen, hw, Option.bind]
    | some pbs =>
      rw [hw] at hps
      cases hwl : CastNode.writeList cs with
      | none =>
        rw [hwl] at hcs
        have hlen : CastNode.len (.mk i h ps cs) = none := by
          unfold CastNode.len
          simp [hps, hcs, Option.bind]
        unfold CastNode.write
        simp [hlen, hw, hwl, Option.bind]
      | some cbs =>
        rw [hwl] at hcs
        have hlen : CastNode.len (.mk i h ps cs) =
            some (0x18 + pbs.length + cbs.length) := by
          unfold CastNode.len
          simp [hps, hcs, Option.bind]
        unfold CastNode.write
        simp [hlen, hw, hwl, Option.bind, leBytes_length]
        omega

theorem CastNode.lenList_eq_writeList (cs : List CastNode) :
    CastNode.lenList cs = (CastNode.writeList cs).map List.length := by
  match cs with
  | [] => rfl
  | c :: cs' =>
    have h1 := nodeLen_eq_nodeWrite c
    have h2 := CastNode.lenList_eq_writeList cs'
    unfold CastNode.lenList CastNode.writeList
    cases hw : c.write with
    | none => rw [hw] at h1; simp [h1, hw, Option.bind]
    | some bs =>
      rw [hw] at h1
      cases hwl : CastNode.writeList cs' with
      | none => rw [hwl] at h2; simp [h1, hw, hwl, h2, Option.bind]
      | some bss =>
        rw [hwl] at h2
        simp [h1, hw, hwl, h2, Option.bind]
end

/-! ## Claims -/

/-- C4: for every node, the reported size (`len()`) equals exactly the
number of bytes that encoding (`write()`) emits for that node and its
entire subtree — the fixed 24-byte node header plus, per property, 8
header bytes plus name bytes plus payload bytes, plus the recursive
sizes of all children (whenever `write` is defined, and `len` is
undefined exactly where `write` is). -/
theorem claim_C4 (n : CastNode) : n.len = n.write.map List.length :=
  nodeLen_eq_nodeWrite n

/-- C8: `readString` scans byte by byte until a zero byte or the end of
the stream; end-of-stream before a terminator is tolerated and yields
the accumulated bytes; the returned text is exactly the bytes before the
first zero (the terminator is consumed, never included). -/
theorem claim_C8 (s : List Nat) :
    readString s =
      (s.takeWhile (fun b => b != 0), (s.dropWhile (fun b => b != 0)).drop 1)
    ∧ 0 ∉ (readString s).1 := by
  have key : readString s =
      (s.takeWhile (fun b => b != 0), (s.dropWhile (fun b => b != 0)).drop 1) := by
    induction s with
    | nil => rfl
    | cons b rest ih =>
      simp only [readString, List.takeWhile_cons, List.dropWhile_cons]
      by_cases hb : b = 0
      · simp [hb]
      · have hb' : (b != 0) = true := by simp [hb]
        simp [hb, hb', ih]
  refine ⟨key, ?_⟩
  rw [key]
  intro hmem
  have := List.mem_takeWhile_imp hmem
  simp at this

/-- The 24-byte wire image of a childless, property-less node of kind
`root` (`0x746F6F72`) whose stored identity hash is `5`. -/
def c2NodeStream : List Nat :=
  leBytes 4 0x746F6F72 ++ leBytes 4 24 ++ leBytes 8 5 ++
    leBytes 4 0 ++ leBytes 4 0

/-- C2 — the claim says a decoded node's `Hash()` equals the stream's
`NodeHash` field; in the code `castNode.load` reads the header but never
stores `header.NodeHash` (nor `header.Id`), so the loaded node keeps the
Go zero value: decoding `c2NodeStream` (stored hash `5`) yields a node
whose `Hash()` is `0`.  (The hash allocator is indeed never consulted on
decode — `loadF` is independent of the allocator state — but the stored
hash is lost rather than retained.) -/
theorem claim_C2 :
    leVal ((c2NodeStream.drop 8).take 8) = 5
  ∧ CastNode.loadF c2NodeStream.length c2NodeStream = .ok (.mk 0 0 [] [], [])
  ∧ CastNode.Hash (.mk 0 0 [] []) = 0
  ∧ (0 : Nat) ≠ 5 := ⟨rfl, rfl, rfl, by decide⟩

/-- A well-formed 40-byte cast file: header (magic, version 1, one root,
flags 0) and a single root node of kind `root`, hash `5`, no properties,
no children, correct self-size 24. -/
def c1Stream : List Nat :=
  leBytes 4 0x74736163 ++ leBytes 4 1 ++ leBytes 4 1 ++ leBytes 4 0 ++
    leBytes 4 0x746F6F72 ++ leBytes 4 24 ++ leBytes 8 5 ++
    leBytes 4 0 ++ leBytes 4 0

/-- What `Write` actually emits for the container decoded from
`c1Stream`: the node header's `Id` and `NodeHash` fields have become
zero. -/
def c1Output : List Nat :=
  leBytes 4 0x74736163 ++ leBytes 4 1 ++ leBytes 4 1 ++ leBytes 4 0 ++
    leBytes 4 0 ++ leBytes 4 24 ++ leBytes 8 0 ++
    leBytes 4 0 ++ leBytes 4 0

/-- C1 — the claim says `Write ∘ Load` reproduces a well-formed stream
byte-identically; it fails already on `c1Stream` (a single root, no
properties, so property iteration order is irrelevant): `load` drops
the stored node id and hash (cf. C2), and `Write` re-emits them as
zeros, so the output differs from the input in the node header. -/
theorem claim_C1 :
    Load c1Stream = .ok ⟨0, 1, [.mk 0 0 [] []]⟩
  ∧ CastFile.Write ⟨0, 1, [.mk 0 0 [] []]⟩ = some c1Output
  ∧ c1Output ≠ c1Stream := ⟨rfl, rfl, by decide⟩

/-- C3 — the claim says the `array_len` header field of a string
property is the string's byte length plus one; in the code it is
`uint32(binary.Size(values))` and `binary.Size` of a `[]string` is `-1`,
so every string property is written with `array_len = 4294967295`.
Failing input: property name `"n"`, single value `"Cube"` (claimed
field value 5).  For non-string kinds the claim's formula
element-size × count is what the code writes (third conjunct: two
`Vec3` values give 24). -/
theorem claim_C3 :
    (CastProperty.write ⟨PropString, [0x6E], .vString [[0x43, 0x75, 0x62, 0x65]]⟩).map
        (fun bs => leVal ((bs.drop 4).take 4)) = some 4294967295
  ∧ (4294967295 : Nat) ≠ 5
  ∧ (CastProperty.write ⟨PropVector3, [0x76, 0x70], .vVec3 [1, 2]⟩).map
        (fun bs => leVal ((bs.drop 4).take 4)) = some 24 := by
  refine ⟨?_, by decide, ?_⟩ <;> rfl

/-- A bone sibling with identity hash `5`, as built by
`CreateChild(NewCastNodeBone())` — the interface holds a
`*CastNodeBone`. -/
def c7Bone : castNode := .mk (.ptrWrapper .bone) 0x656E6F62 5 [] []

/-- An IK-handle node whose `"eb"` (end-bone) property holds the hash 5
of the sibling bone. -/
def c7IkHandle : castNode :=
  .mk (.ptrWrapper .ikHandle) 0x64686B69 7
    [⟨PropInteger64, endBoneName, .vInt64 [5]⟩] []

/-- The common parent: a skeleton whose direct children are the bone and
the IK handle. -/
def c7Skeleton : castNode :=
  .mk (.ptrWrapper .skeleton) 0x6C656B73 9 [] [c7Bone, c7IkHandle]

/-- C7 — the no-parent half of the claim holds: `EndBone` on an orphan
IK handle returns nil without error (first conjunct).  The resolution
half fails: the first-match hash search over the parent's children does
find the bone (second conjunct), but `getChildByHash[T]` then asserts
the found `iCastNode` to the wrapper *value* type `CastNodeBone`, while
every child is stored as a pointer (`*CastNodeBone` here, `*castNode`
for loaded trees) and all `iCastNode` methods have pointer receivers —
so the assertion always fails and `EndBone` returns nil even though a
matching sibling exists (third conjunct). -/
theorem claim_C7 :
    CastNodeIKHandle.EndBone c7IkHandle none = none
  ∧ castNode.ChildByHash c7Skeleton 5 = some c7Bone
  ∧ CastNodeIKHandle.EndBone c7IkHandle (some c7Skeleton) = none :=
  ⟨rfl, rfl, rfl⟩

/-- A property on which `len`/`write` are defined: every string-kind
property must hold at least one value (the source indexes `values[0]`). -/
def stringPropOk (p : CastProperty) : Bool :=
  match p.values with
  | .vString [] => false
  | _ => true

mutual
/-- Every string property in the subtree holds at least one value. -/
def stringPropsOk : CastNode → Bool
  | .mk _ _ ps cs => ps.all stringPropOk && stringPropsOkList cs

def stringPropsOkList : List CastNode → Bool
  | [] => true
  | c :: cs => stringPropsOk c && stringPropsOkList cs
end

theorem propLen_isSome (p : CastProperty) :
    p.len.isSome = stringPropOk p := by
  obtain ⟨id, name, v⟩ := p
  cases v
  case vString vs => cases vs <;> rfl
  all_goals rfl

theorem propsLen_isSome (ps : List CastProperty) :
    (propsLen ps).isSome = ps.all stringPropOk := by
  induction ps with
  | nil => rfl
  | cons p ps ih =>
    have hp := propLen_isSome p
    unfold propsLen
    cases hl : p.len with
    | none => rw [hl] at hp; simp [Option.bind, ← hp]
    | some a =>
      rw [hl] at hp
      cases hls : propsLen ps with
      | none => rw [hls] at ih; simp [Option.bind, ← hp, ← ih]
      | some b => rw [hls] at ih; simp [Option.bind, ← hp, ← ih]

mutual
theorem nodeLen_isSome (n : CastNode) :
    n.len.isSome = stringPropsOk n := by
  match n with
  | .mk i h ps cs =>
    have hcs := CastNode.lenList_isSome cs
    have hps := propsLen_isSome ps
    unfold CastNode.len stringPropsOk
    cases hl : propsLen ps with
    | none => rw [hl] at hps; simp [Option.bind, ← hps]
    | some a =>
      rw [hl] at hps
      cases hll : CastNode.lenList cs with
      | none => rw [hll] at hcs; simp [Option.bind, ← hps, ← hcs]
      | some b => rw [hll] at hcs; simp [Option.bind, ← hps, ← hcs]

theorem CastNode.lenList_isSome (cs : List CastNode) :
    (CastNode.lenList cs).isSome = stringPropsOkList cs := by
  match cs with
  | [] => rfl
  | c :: cs' =>
    have h1 := nodeLen_isSome c
    have h2 := CastNode.lenList_isSome cs'
    unfold CastNode.lenList stringPropsOkList
    cases hl : c.len with
    | none => rw [hl] at h1; simp [Option.bind, ← h1]
    | some a =>
      rw [hl] at h1
      cases hll : CastNode.lenList cs' with
      | none => rw [hll] at h2; simp [Option.bind, ← h1, ← h2]
      | some b => rw [hll] at h2; simp [Option.bind, ← h1, ← h2]
end

/-- C9: a string property fresh from `CreateProperty(PropString, name)`
holds zero values (first conjunct), and size computation and encoding
are partial exactly there — `len()` and `write()` are defined on a node
if and only if every string property in its subtree holds at least one
value; on a subtree violating that, both index element 0 of an empty
slice and panic instead of returning an error. -/
theorem claim_C9 :
    (∀ (n : CastNode) (name : List Nat), ∃ n',
        n.CreateProperty PropString name =
          .ok (⟨PropString, name, .vString []⟩, n'))
  ∧ (∀ n : CastNode, n.len.isSome = stringPropsOk n)
  ∧ (∀ n : CastNode, n.write.isSome = stringPropsOk n) := by
  refine ⟨fun n name => ⟨_, rfl⟩, fun n => nodeLen_isSome n, fun n => ?_⟩
  have h := nodeLen_eq_nodeWrite n
  have h2 := nodeLen_isSome n
  rw [h] at h2
  cases hw : n.write with
  | none => rw [hw] at h2; simpa using h2
  | some bs => rw [hw] at h2; simpa using h2

set_option maxHeartbeats 1000000 in
theorem newCastProperty_ok (id : Nat) (name : List Nat) (sz : Nat)
    (p : CastProperty) (h : newCastProperty id name sz = .ok p) :
    p.id = id ∧ p.name = name ∧ p.values.count = sz := by
  unfold newCastProperty at h
  split_ifs at h <;>
    first
      | exact Except.noConfusion h
      | (cases h; exact ⟨rfl, rfl, by simp [PropValues.count]⟩)

theorem loadValues_count (v v' : PropValues) (s rest : List Nat)
    (h : loadValues v s = some (v', rest)) :
    v'.count = (if v.goTy = .tString then 1 else v.count)
    ∧ v'.goTy = v.goTy := by
  cases v
  case vString vs =>
    simp only [loadValues, Option.some.injEq, Prod.mk.injEq] at h
    obtain ⟨hv, -⟩ := h
    subst hv
    simp [PropValues.goTy, PropValues.count]
  all_goals
    simp only [loadValues, Option.map_eq_some', Prod.mk.injEq] at h
  all_goals
    obtain ⟨q, -, hf, -⟩ := h
  all_goals
    subst hf
  all_goals
    simp [PropValues.goTy, PropValues.count, PropValues.withNums,
      readElems_length]

theorem CastProperty.load_count (p p' : CastProperty) (s rest : List Nat)
    (h : p.load s = some (p', rest)) :
    p'.values.count = (if p.values.goTy = .tString then 1 else p.values.count)
    ∧ p'.values.goTy = p.values.goTy := by
  unfold CastProperty.load at h
  rw [Option.map_eq_some'] at h
  obtain ⟨q, hq, hf⟩ := h
  injection hf with h1 h2
  rw [← h1]
  exact loadValues_count p.values q.1 s q.2 (by rw [hq])

/-- C5: for every property decoded from a stream, the number of values
held after decode equals the header's `array_len` (bytes 4–7 of the
property stream) for every non-string kind, and equals exactly 1 for the
string kind regardless of the literal value of `array_len`. -/
theorem claim_C5 (s : List Nat) (p : CastProperty) (rest : List Nat)
    (h : loadCastProperty s = .ok (p, rest)) :
    p.values.count =
      if p.values.goTy = .tString then 1 else leVal ((s.drop 4).take 4) := by
  unfold loadCastProperty at h
  cases h1 : readLE 2 s with
  | none => rw [h1] at h; exact Except.noConfusion h
  | some q1 =>
    obtain ⟨id, s1⟩ := q1
    simp only [h1] at h
    cases h2 : readLE 2 s1 with
    | none => rw [h2] at h; exact Except.noConfusion h
    | some q2 =>
      obtain ⟨nameSize, s2⟩ := q2
      simp only [h2] at h
      cases h3 : readLE 4 s2 with
      | none => rw [h3] at h; exact Except.noConfusion h
      | some q3 =>
        obtain ⟨arrLen, s3⟩ := q3
        simp only [h3] at h
        cases h4 : readBytes nameSize s3 with
        | none => rw [h4] at h; exact Except.noConfusion h
        | some q4 =>
          obtain ⟨name, s4⟩ := q4
          simp only [h4] at h
          cases h5 : newCastProperty id name arrLen with
          | error e => rw [h5] at h; exact Except.noConfusion h
          | ok p0 =>
            simp only [h5] at h
            cases h6 : p0.load s4 with
            | none => rw [h6] at h; exact Except.noConfusion h
            | some q6 =>
              obtain ⟨p', rest'⟩ := q6
              simp only [h6, Except.ok.injEq, Prod.mk.injEq] at h
              obtain ⟨hp, -⟩ := h
              rw [hp] at h6
              obtain ⟨hc, hg⟩ := CastProperty.load_count p0 p s4 rest' h6
              obtain ⟨-, -, hcount⟩ := newCastProperty_ok id name arrLen p0 h5
              obtain ⟨harr, -, -⟩ := readLE_eq_some 4 s2 arrLen s3 h3
              obtain ⟨-, hs1, -⟩ := readLE_eq_some 2 s id s1 h1
              obtain ⟨-, hs2, -⟩ := readLE_eq_some 2 s1 nameSize s2 h2
              have hs4 : s2 = s.drop 4 := by
                rw [hs2, hs1, List.drop_drop]
              rw [hc, hg]
              by_cases hstr : p0.values.goTy = .tString
              · simp [hstr]
              · simp [hstr, hcount, harr, hs4]

/-- A concrete property stream: kind `'b'`, name `"a"`, `array_len = 2`,
payload bytes `7, 8`. -/
def c5Stream : List Nat := [0x62, 0, 1, 0, 2, 0, 0, 0, 0x61, 7, 8]

theorem claim_C5_witness :
    PropValues.count (PropValues.vByte [7, 8]) =
      if PropValues.goTy (PropValues.vByte [7, 8]) = .tString then 1
      else leVal ((c5Stream.drop 4).take 4) :=
  claim_C5 c5Stream ⟨0x62, [0x61], .vByte [7, 8]⟩ [] rfl

theorem loadCastProperty_decomp (id sz : Nat) (name payload : List Nat)
    (hid : id < 65536) (hname : name.length < 65536) (hsz : sz < 4294967296) :
    loadCastProperty (leBytes 2 id ++ leBytes 2 name.length ++ leBytes 4 sz ++
        name ++ payload) =
      match newCastProperty id name sz with
      | .error e => .error e
      | .ok p =>
        match p.load payload with
        | none => .error .ioError
        | some (p', rest) => .ok (p', rest) := by
  have e2 : (256 : Nat) ^ 2 = 65536 := by norm_num
  have e4 : (256 : Nat) ^ 4 = 4294967296 := by norm_num
  unfold loadCastProperty
  simp only [List.append_assoc, readLE_leBytes, readBytes_append, e2, e4,
    Nat.mod_eq_of_lt hid, Nat.mod_eq_of_lt hname, Nat.mod_eq_of_lt hsz]

theorem loadCastProperty_ok_of (id sz : Nat) (name payload : List Nat)
    (hid : id < 65536) (hname : name.length < 65536) (hsz : sz < 4294967296)
    (p0 p' : CastProperty) (rest : List Nat)
    (hok : newCastProperty id name sz = .ok p0)
    (hload : p0.load payload = some (p', rest)) :
    loadCastProperty (leBytes 2 id ++ leBytes 2 name.length ++ leBytes 4 sz ++
      name ++ payload) = .ok (p', rest) := by
  rw [loadCastProperty_decomp id sz name payload hid hname hsz, hok]
  dsimp only
  rw [hload]

theorem loadValues_isSome (v : PropValues) (payload : List Nat)
    (hle : v.elemSize * v.count ≤ payload.length) :
    (loadValues v payload).isSome = true := by
  cases v
  case vString vs => rfl
  all_goals
    simp only [PropValues.elemSize, PropValues.count, one_mul] at hle
  all_goals
    simp [loadValues, readBytes, PropValues.elemSize, PropValues.count, hle]

theorem CastProperty.load_isSome (p : CastProperty) (payload : List Nat)
    (hle : p.values.elemSize * p.values.count ≤ payload.length) :
    ∃ p' rest, p.load payload = some (p', rest)
      ∧ p'.id = p.id ∧ p'.name = p.name := by
  obtain ⟨q, hq⟩ := Option.isSome_iff_exists.mp
    (loadValues_isSome p.values payload hle)
  refine ⟨{ p with values := q.1 }, q.2, ?_, rfl, rfl⟩
  unfold CastProperty.load
  rw [hq]
  rfl

theorem newCastProperty_mem (id : Nat) (name : List Nat) (sz : Nat)
    (hmem : id ∈ castPropertyIds) :
    ∃ p0, newCastProperty id name sz = .ok p0 ∧ p0.id = id ∧ p0.name = name
      ∧ p0.values.count = sz := by
  simp only [castPropertyIds, List.mem_cons, List.not_mem_nil, or_false]
    at hmem
  rcases hmem with h | h | h | h | h | h | h | h | h | h <;> subst h <;>
    exact ⟨_, rfl, rfl, rfl, by simp [PropValues.count]⟩

/-- C6: decoding a property whose header carries a kind tag outside the
closed set `{'b','h','i','l','f','d','s',0x7632,0x7633,0x7634}` fails
with the invalid-property-id error, and `CreateProperty` rejects such a
tag with the identical error (both construction paths share
`newCastProperty`); for every tag inside the set both operations
succeed in constructing the corresponding variant (decode additionally
consumes its payload once enough bytes are present — for the string
kind any stream suffices, since `elemSize = 0`). -/
theorem claim_C6 (id sz : Nat) (name payload : List Nat) (n : CastNode)
    (hid : id < 65536) (hname : name.length < 65536) (hsz : sz < 4294967296) :
    (id ∉ castPropertyIds →
        newCastProperty id name sz = .error (.invalidPropertyId id)
      ∧ loadCastProperty (leBytes 2 id ++ leBytes 2 name.length ++
            leBytes 4 sz ++ name ++ payload) =
          .error (.invalidPropertyId id)
      ∧ n.CreateProperty id name = .error (.invalidPropertyId id))
    ∧ (id ∈ castPropertyIds →
        (∃ p n', n.CreateProperty id name = .ok (p, n') ∧ p.id = id)
      ∧ ∃ p0, newCastProperty id name sz = .ok p0 ∧ p0.id = id
          ∧ p0.values.count = sz
          ∧ (p0.values.elemSize * sz ≤ payload.length →
              ∃ p rest,
                loadCastProperty (leBytes 2 id ++ leBytes 2 name.length ++
                    leBytes 4 sz ++ name ++ payload) = .ok (p, rest)
                ∧ p.id = id ∧ p.name = name)) := by
  constructor
  · intro hmem
    have key : ∀ k, newCastProperty id name k =
        .error (.invalidPropertyId id) := by
      intro k
      simp only [castPropertyIds, List.mem_cons, List.not_mem_nil, or_false]
        at hmem
      push_neg at hmem
      obtain ⟨h1, h2, h3, h4, h5, h6, h7, h8, h9, h10⟩ := hmem
      unfold newCastProperty
      simp [h1, h2, h3, h4, h5, h6, h7, h8, h9, h10]
    refine ⟨key sz, ?_, ?_⟩
    · rw [loadCastProperty_decomp id sz name payload hid hname hsz, key sz]
    · unfold CastNode.CreateProperty
      rw [key 0]
  · intro hmem
    obtain ⟨p0, hok, hpid, hpname, hpcount⟩ :=
      newCastProperty_mem id name sz hmem
    obtain ⟨q0, hok0, hqid, -, -⟩ := newCastProperty_mem id name 0 hmem
    constructor
    · refine ⟨q0, .mk n.id n.Hash (mapAssign n.properties q0) n.childNodes,
        ?_, hqid⟩
      unfold CastNode.CreateProperty
      rw [hok0]
    · refine ⟨p0, hok, hpid, hpcount, fun hle => ?_⟩
      have hle' : p0.values.elemSize * p0.values.count ≤ payload.length := by
        rw [hpcount]; exact hle
      obtain ⟨p', rest, hl, hid', hname'⟩ :=
        CastProperty.load_isSome p0 payload hle'
      exact ⟨p', rest,
        loadCastProperty_ok_of id sz name payload hid hname hsz p0 p' rest
          hok hl,
        by rw [hid', hpid], by rw [hname', hpname]⟩

theorem claim_C6_witness :
    newCastProperty 0x1234 [0x61] 0 = .error (.invalidPropertyId 0x1234) :=
  (((claim_C6 0x1234 0 [0x61] [] (.mk 0 0 [] []) (by decide) (by decide)
    (by decide)).1) (by decide)).1

theorem PropValues.firstVal_eq_none (v : PropValues) :
    v.firstVal = none ↔ v.count = 0 := by
  cases v <;>
    simp [PropValues.firstVal, PropValues.nums, PropValues.count,
      List.head?_eq_none_iff, List.length_eq_zero]

/-- C10: `GetPropertyValue[T]` returns `ErrEmptyValues` exactly when the
named property exists with matching element type `T` but holds zero
values; an absent property gives the not-found error, a type mismatch
the mismatch error, and a non-empty matching property yields its first
value. -/
theorem claim_C10 (T : GoValueTy) (n : CastNode) (name : List Nat) :
    (GetPropertyValue T n name = .error .emptyValues ↔
        ∃ p, n.GetProperty name = some p ∧ p.values.goTy = T
          ∧ p.values.count = 0)
  ∧ (n.GetProperty name = none →
        GetPropertyValue T n name = .error (.propertyNotFound name))
  ∧ (∀ p, n.GetProperty name = some p → p.values.goTy ≠ T →
        GetPropertyValue T n name = .error .propertyTypeMismatch)
  ∧ (∀ p, n.GetProperty name = some p → p.values.goTy = T →
        p.values.count ≠ 0 →
        ∃ v, p.values.firstVal = some v
          ∧ GetPropertyValue T n name = .ok v) := by
  cases hp : n.GetProperty name with
  | none =>
    have hgv : GetPropertyValue T n name =
        .error (.propertyNotFound name) := by
      unfold GetPropertyValue GetPropertyValues
      rw [hp]
    refine ⟨?_, fun _ => hgv, ?_, ?_⟩
    · rw [hgv]
      simp
    · intro p hps
      exact absurd hps (by simp)
    · intro p hps
      exact absurd hps (by simp)
  | some p0 =>
    have hsome : ∀ p : CastProperty, some p0 = some p → p0 = p :=
      fun p hps => Option.some_inj.mp hps
    by_cases hty : p0.values.goTy = T
    · cases hfv : p0.values.firstVal with
      | none =>
        have hc := (PropValues.firstVal_eq_none p0.values).mp hfv
        have hgv : GetPropertyValue T n name = .error .emptyValues := by
          unfold GetPropertyValue GetPropertyValues
          rw [hp]
          simp [hty, hfv]
        refine ⟨⟨fun _ => ⟨p0, rfl, hty, hc⟩, fun _ => hgv⟩, ?_, ?_, ?_⟩
        · intro hnone
          exact absurd hnone (by simp)
        · intro p hps hne
          obtain rfl := hsome p hps
          exact absurd hty hne
        · intro p hps hpt hpc
          obtain rfl := hsome p hps
          exact absurd hc hpc
      | some v =>
        have hcne : p0.values.count ≠ 0 := by
          intro h0
          rw [(PropValues.firstVal_eq_none p0.values).mpr h0] at hfv
          exact Option.noConfusion hfv
        have hgv : GetPropertyValue T n name = .ok v := by
          unfold GetPropertyValue GetPropertyValues
          rw [hp]
          simp [hty, hfv]
        refine ⟨?_, ?_, ?_, ?_⟩
        · rw [hgv]
          constructor
          · intro h
            exact absurd h (by simp)
          · rintro ⟨p, hps, -, hc0⟩
            obtain rfl := hsome p hps
            exact absurd hc0 hcne
        · intro hnone
          exact absurd hnone (by simp)
        · intro p hps hne
          obtain rfl := hsome p hps
          exact absurd hty hne
        · intro p hps hpt hpc
          exact ⟨v, (hsome p hps) ▸ hfv, hgv⟩
    · have hgv : GetPropertyValue T n name =
          .error .propertyTypeMismatch := by
        unfold GetPropertyValue GetPropertyValues
        rw [hp]
        simp [hty]
      refine ⟨?_, ?_, fun p hps hne => hgv, ?_⟩
      · rw [hgv]
        constructor
        · intro h
          exact absurd h (by simp)
        · rintro ⟨p, hps, hpt, -⟩
          obtain rfl := hsome p hps
          exact absurd hpt hty
      · intro hnone
        exact absurd hnone (by simp)
      · intro p hps hpt hpc
        obtain rfl := hsome p hps
        exact absurd hpt hty

/-- A node holding a single `[]byte` property named `"a"` with zero
values. -/
def c10Node : CastNode := .mk 1 2 [⟨PropByte, [0x61], .vByte []⟩] []

theorem claim_C10_witness :
    GetPropertyValue .tByte c10Node [0x61] = .error .emptyValues :=
  (claim_C10 .tByte c10Node [0x61]).1.mpr ⟨⟨PropByte, [0x61], .vByte []⟩,
    rfl, rfl, rfl⟩
